import Mathlib

/-!
Shallow embedding of the Data Delivery Portal CLI prototype
(`code_api/dp_cli.py` and the download scheduler of `dds_cli/__main__.py`).

Bytes are modelled as `Nat` values below 256, byte strings as `List Nat`,
and a file's streamed content as the list of chunks returned by the
chunked reads (`stream_chunks` with chunk_size 65536).  Randomness
(`os.urandom`) is an explicit input: an `entropy : Nat → List Nat`
oracle supplies the k-th draw.  Output channels (the encrypted file and
stdout) are recorded as explicit event or byte-string lists.

Third-party library calls that the source delegates to (the
`cryptography` HMAC and ChaCha20Poly1305 primitives, `gzip`, and the
`crypt4gh` header/lib functions) are not part of this repository; they
are modelled here as executable stand-ins that are faithful to the
library interfaces and documented behaviour (incremental keyed digest
with at-most-once finalization, authenticated encryption whose tag
covers every ciphertext byte, self-contained invertible compression of
each chunk, wrapped session key decodable by the counterpart keyholder).
-/

-- ## Byte-string digests: model of cryptography.hazmat hmac.HMAC(key, SHA256)

/-- One mixing step of the stand-in digest (32-bit accumulator). -/
def mixStep (a b : Nat) : Nat := (a * 131 + b + 17) % 4294967296

/-- Modelled from the spec: keyed digest (HMAC-SHA256 in the source's
`cryptography` library, which is not part of src/).  Executable stand-in:
absorbs `key ++ data` plus both lengths into a 32-bit accumulator and
emits four digest bytes.  Only determinism and byte-valued output are
relied on by the development. -/
def hmacDigest (key data : List Nat) : List Nat :=
  let s := (key ++ data).foldl mixStep (5381 + 131 * key.length + data.length)
  [s % 256, s / 256 % 256, s / 65536 % 256, s / 16777216 % 256]

/-- Lower-case hexadecimal digit, as produced by Python `bytes.hex()`. -/
def hexChar (n : Nat) : Char := if n < 10 then Char.ofNat (48 + n) else Char.ofNat (87 + n)

/-- Lower-case hexadecimal rendering of a byte string (`bytes.hex()`). -/
def toHex (bytes : List Nat) : String :=
  String.mk (bytes.flatMap (fun b => [hexChar (b / 16 % 16), hexChar (b % 16)]))

/-- The sixteen characters Python `bytes.hex()` can emit. -/
def lowerHexChars : List Char := "0123456789abcdef".toList

/-- The checksum accumulator used throughout `dp_cli.py`
(`hmac.HMAC(key, hashes.SHA256())` from the `cryptography` library,
not part of src/).  Modelled from the spec/library contract: `update`
absorbs a chunk, `finalize` may be called at most once; once finalized,
both `update` and a second `finalize` raise `AlreadyFinalized` instead
of producing anything. -/
structure HMACAcc where
  key : List Nat
  data : List Nat
  finalized : Bool
deriving DecidableEq

/-- `HMAC.update(chunk)`: appends to the absorbed stream; raises
`AlreadyFinalized` after finalization. -/
def HMACAcc.update (h : HMACAcc) (chunk : List Nat) : Except String HMACAcc :=
  if h.finalized then Except.error "AlreadyFinalized"
  else Except.ok { h with data := h.data ++ chunk }

/-- `HMAC.finalize()`: returns the digest bytes exactly once; a second
call raises `AlreadyFinalized` (it never returns a different digest). -/
def HMACAcc.finalize (h : HMACAcc) : Except String (List Nat × HMACAcc) :=
  if h.finalized then Except.error "AlreadyFinalized"
  else Except.ok (hmacDigest h.key h.data, { h with finalized := true })

/-- The hard-coded HMAC key `b"Thisisakeythatshouldbechanged"` of
`process_file` (dp_cli.py line 645). -/
def pyHmacKey : List Nat := "Thisisakeythatshouldbechanged".toList.map Char.toNat

-- ## Compression: model of the gzip library used by compress_chunk

/-- Modelled from the spec: the `gzip` library member header (not part
of src/); three fixed bytes `1f 8b 08` standing for magic + deflate id. -/
def gzipHeaderBytes : List Nat := [31, 139, 8]

/-- Modelled from the spec: `gzip.compress(data)` on one chunk — a
self-contained compressed member: fixed member header followed by the
stored payload.  Invertible, chunk-independent, and different from the
identity on every chunk (faithful to the interface the source relies on). -/
def gzipCompress (data : List Nat) : List Nat := gzipHeaderBytes ++ data

/-- Modelled from the spec: `gzip.decompress` of one compressed member
produced by `gzipCompress`: strips the member header. -/
def gzipDecompress (compressed : List Nat) : List Nat := compressed.drop 3

/-- dp_cli.py `compress_chunk` (lines 204-210): a generator that, for one
original chunk, yields exactly one gzip-compressed chunk.  The yielded
stream is modelled as the list of yielded values. -/
def compress_chunk (original_chunk : List Nat) : List (List Nat) :=
  [gzipCompress original_chunk]

/-- dp_cli.py `decompress_chunk` (lines 213-216): yields
`gzip.decompress(compressed_chunk)`. -/
def decompress_chunk (compressed_chunk : List Nat) : List (List Nat) :=
  [gzipDecompress compressed_chunk]

-- ## Authenticated encryption: model of ChaCha20Poly1305

/-- Modelled from the spec: the ChaCha20 keystream byte for position `i`
under `key`/`nonce` (library primitive, not part of src/). -/
def aeadKs (key nonce : List Nat) (i : Nat) : Nat :=
  (key.foldl mixStep 97 + nonce.foldl mixStep 59 + i * 131) % 256

/-- Modelled from the spec: the Poly1305 tag-stream byte for position `i`
under `key`/`nonce` (library primitive, not part of src/). -/
def aeadTk (key nonce : List Nat) (i : Nat) : Nat :=
  (key.foldl mixStep 31 + nonce.foldl mixStep 83 + i * 257 + 7) % 256

/-- Ciphertext body: plaintext masked bytewise by the keystream. -/
def encBody (key nonce pt : List Nat) : List Nat :=
  pt.mapIdx (fun i b => (b + aeadKs key nonce i) % 256)

/-- Authentication tag over a ciphertext body.  Idealized: the tag
covers every body byte (position `i` of the tag authenticates position
`i` of the body), the ideal-AEAD reading of the library guarantee that
any modification of ciphertext or tag fails verification. -/
def tagOf (key nonce body : List Nat) : List Nat :=
  body.mapIdx (fun i b => (b + aeadTk key nonce i) % 256)

/-- `ChaCha20Poly1305(key).encrypt(nonce, data, None)`: returns
ciphertext body followed by its authentication tag. -/
def aeadEncrypt (key nonce pt : List Nat) : List Nat :=
  encBody key nonce pt ++ tagOf key nonce (encBody key nonce pt)

/-- Unmasking of a ciphertext body. -/
def decBody (key nonce body : List Nat) : List Nat :=
  body.mapIdx (fun i c => (c + 256 - aeadKs key nonce i) % 256)

/-- `ChaCha20Poly1305(key).decrypt(nonce, ct, None)`: splits off the
tag, verifies it over the body, and only on success releases plaintext;
a failed verification yields nothing (`none`). -/
def aeadDecrypt (key nonce ct : List Nat) : Option (List Nat) :=
  let body := ct.take (ct.length / 2)
  let tag := ct.drop (ct.length / 2)
  if ct.length % 2 = 0 ∧ tagOf key nonce body = tag then some (decBody key nonce body)
  else none

-- ## Key exchange and crypt4gh header: model of generate_header

/-- Sum of the bytes of a key, used by the stand-in Diffie-Hellman. -/
def keySum (k : List Nat) : Nat := k.foldl (fun a b => a + b) 0

/-- Modelled from the spec: the Curve25519 public key derived from a
private key (crypt4gh `keys`, not part of src/): a one-byte group
element `3 * sum(priv) mod 256`. -/
def pubOf (priv : List Nat) : List Nat := [3 * keySum priv % 256]

/-- Modelled from the spec: the Diffie-Hellman shared secret of an own
private key and a counterpart public key; symmetric for keypairs built
with `pubOf` (`dhShared a (pubOf b) = dhShared b (pubOf a)`). -/
def dhShared (ownPriv remotePub : List Nat) : Nat :=
  keySum ownPriv * keySum remotePub % 256

/-- Modelled from the spec: crypt4gh header serialization
(`header.make_packet_data_enc` / `header.encrypt` / `header.serialize`,
not part of src/): a fixed 12-byte magic+version preamble followed by
the session key wrapped under the Diffie-Hellman shared secret, so that
only the counterpart keyholder can unwrap it. -/
def serializeHeader (ownPriv remotePub sessionKey : List Nat) : List Nat :=
  [99, 114, 121, 112, 116, 52, 103, 104, 1, 0, 0, 0] ++
    sessionKey.mapIdx (fun i b => (b + (dhShared ownPriv remotePub + i) % 256) % 256)

/-- Unwrapping of the session key from a serialized header by the
counterpart keyholder (crypt4gh `header.deconstruct`, not part of src/). -/
def unwrapSessionKey (ownPriv senderPub headerBytes : List Nat) : List Nat :=
  (headerBytes.drop 12).mapIdx
    (fun i c => (c + 256 - (dhShared ownPriv senderPub + i) % 256) % 256)

/-- Result of dp_cli.py `generate_header` (lines 374-391): the serialized
header bytes, the key of the `ChaCha20Poly1305` cipher it constructs,
and everything the function writes to stdout. -/
structure HeaderResult where
  headerBytes : List Nat
  cipherKey : List Nat
  stdout : List (List Nat)
deriving DecidableEq

/-- dp_cli.py `generate_header` (lines 374-391).  Draws the 32-byte
session key (`os.urandom(32)`, supplied here as the `sessionKey`
argument), executes `print(session_key)` — line 379, recorded in
`stdout` — builds the ChaCha20Poly1305 cipher for that key, and wraps
the session key into the crypt4gh header. -/
def generate_header (ownPriv remotePub sessionKey : List Nat) : HeaderResult :=
  { headerBytes := serializeHeader ownPriv remotePub sessionKey
    cipherKey := sessionKey
    stdout := [sessionKey] }

-- ## Segment encryption and the forward pipelines

/-- One write performed on the encrypted output file: the crypt4gh
header (`ef.write(header_bytes)`), a segment nonce, or a segment's
ciphertext-plus-tag (both written via `process = ef.write` inside
`_encrypt_segment`). -/
inductive WEvent
  | header (bytes : List Nat)
  | nonce (bytes : List Nat)
  | ciphertext (bytes : List Nat)
deriving DecidableEq

/-- Whether a write event is the header write. -/
def WEvent.isHeader : WEvent → Bool
  | WEvent.header _ => true
  | _ => false

/-- dp_cli.py `_encrypt_segment` (lines 333-346): draws a fresh nonce
(`os.urandom(12)`, supplied as `nonceBytes`), encrypts the segment, and
only then writes the nonce followed by the ciphertext-plus-tag.
Returns the value yielded to the caller (the encrypted data) together
with the two writes it performed, in order. -/
def encrypt_segment (cipherKey nonceBytes data : List Nat) : List Nat × List WEvent :=
  let encrypted := aeadEncrypt cipherKey nonceBytes data
  (encrypted, [WEvent.nonce nonceBytes, WEvent.ciphertext encrypted])

/-- The chunk loop of dp_cli.py `hash_encrypt_hash` (lines 479-486):
for the k-th chunk, updates `hash_compressed` with the chunk, encrypts
it as one segment using the k-th `os.urandom(12)` draw, and updates
`hash_encrypted` with the encrypted data.  Returns the bytes absorbed
by `hash_compressed`, the bytes absorbed by `hash_encrypted`, and the
writes performed on the encrypted file. -/
def hehChunks (cipherKey : List Nat) (entropy : Nat → List Nat) (k : Nat) :
    List (List Nat) → List Nat × List Nat × List WEvent
  | [] => ([], [], [])
  | c :: cs =>
    let seg := encrypt_segment cipherKey (entropy k) c
    let rest := hehChunks cipherKey entropy (k + 1) cs
    (c ++ rest.1, seg.1 ++ rest.2.1, seg.2 ++ rest.2.2)

/-- dp_cli.py `hash_encrypt_hash` (lines 470-489): generates the header,
writes it to the encrypted file, then streams the (already compressed)
chunks through `_encrypt_segment`, and returns
`(hash_compressed hex, hash_encrypted hex, file)` — note: the `file`
argument, not `encrypted_file` — paired here with the ordered list of
writes performed on the encrypted output file. -/
def hash_encrypt_hash (file encrypted_file : String) (chunks : List (List Nat))
    (ownPriv remotePub sessionKey hmacKey : List Nat) (entropy : Nat → List Nat) :
    (String × String × String) × List WEvent :=
  let hdr := generate_header ownPriv remotePub sessionKey
  let r := hehChunks hdr.cipherKey entropy 0 chunks
  ((toHex (hmacDigest hmacKey r.1), toHex (hmacDigest hmacKey r.2.1), file),
    WEvent.header hdr.headerBytes :: r.2.2)

/-- The chunk loop of dp_cli.py `hash_compress_hash_encrypt_hash`
(lines 452-464): for the k-th chunk, updates `hash_original` with the
chunk, compresses it, updates `hash_compressed` with the compressed
chunk, encrypts the compressed chunk as one segment using the k-th
`os.urandom(12)` draw, and updates `hash_encrypted` with the encrypted
data.  Returns the three absorbed byte streams and the writes performed
on the encrypted file. -/
def hchehChunks (cipherKey : List Nat) (entropy : Nat → List Nat) (k : Nat) :
    List (List Nat) → List Nat × List Nat × List Nat × List WEvent
  | [] => ([], [], [], [])
  | c :: cs =>
    let comp := gzipCompress c
    let seg := encrypt_segment cipherKey (entropy k) comp
    let rest := hchehChunks cipherKey entropy (k + 1) cs
    (c ++ rest.1, comp ++ rest.2.1, seg.1 ++ rest.2.2.1, seg.2 ++ rest.2.2.2)

/-- dp_cli.py `hash_compress_hash_encrypt_hash` (lines 443-467):
generates the header, writes it to the encrypted file, streams the
chunks through compress-then-encrypt, and returns
`(hash_original hex, hash_compressed hex, hash_encrypted hex,
encrypted_file)`, paired here with the ordered list of writes performed
on the encrypted output file. -/
def hash_compress_hash_encrypt_hash (file encrypted_file : String)
    (chunks : List (List Nat)) (ownPriv remotePub sessionKey hmacKey : List Nat)
    (entropy : Nat → List Nat) :
    (String × String × String × String) × List WEvent :=
  let hdr := generate_header ownPriv remotePub sessionKey
  let r := hchehChunks hdr.cipherKey entropy 0 chunks
  ((toHex (hmacDigest hmacKey r.1), toHex (hmacDigest hmacKey r.2.1),
      toHex (hmacDigest hmacKey r.2.2.1), encrypted_file),
    WEvent.header hdr.headerBytes :: r.2.2.2)

-- ## Restore direction: model of try_decryption

/-- Body decryption performed by crypt4gh `lib.decrypt` (not part of
src/): reads nonce and ciphertext-plus-tag segment pairs in order,
verifies each tag, and concatenates the released segment plaintexts;
any malformed stream or failed tag is terminal (`none`). -/
def segPlain (sessionKey : List Nat) : List WEvent → Option (List Nat)
  | [] => some []
  | WEvent.nonce n :: WEvent.ciphertext c :: rest =>
    match aeadDecrypt sessionKey n c with
    | none => none
    | some p =>
      match segPlain sessionKey rest with
      | none => none
      | some q => some (p ++ q)
  | _ => none

/-- dp_cli.py `try_decryption` (lines 876-892): reads the encrypted file
(its header followed by the segment writes), unwraps the session key
with `keypair = (own private key, sender public key)`, decrypts
`span = 65536` bytes of body (`lib.decrypt(..., offset=0, span=65536)`)
into the `.decrypted` file — without ever decompressing — and returns
the hex HMAC of those decrypted bytes (`gen_hmac` over the `.decrypted`
file).  The HMAC key is a parameter here; in the source this line
references an undefined global `key` (line 887, marked `# NOT WORKING #`). -/
def try_decryption (ownPriv senderPub hmacKey : List Nat) (encryptedFile : List WEvent) :
    Option String :=
  match encryptedFile with
  | WEvent.header hb :: rest =>
    let sessionKey := unwrapSessionKey ownPriv senderPub hb
    match segPlain sessionKey rest with
    | none => none
    | some body => some (toHex (hmacDigest hmacKey (body.take 65536)))
  | _ => none

-- ## process_file: the per-file processing operation

/-- Outcome of one `process_file` call.  `sysExit` is process
termination (`sys.exit()` raising `SystemExit`); `failed` is the
`{"FAILED": {"Path": ..., "Error": ...}}` record; `record` is the final
success dictionary. -/
inductive ProcResult
  | sysExit
  | failed (path error : String)
  | record (finalPath : String) (compressed : Bool) (compressionAlg : String)
      (hashCompressed : String) (encrypted : Bool) (encryptionAlg : String)
      (hashEncrypted : String)
deriving DecidableEq

/-- dp_cli.py `process_file` (lines 606-769).  The executed prefix is
lines 620-626: initialize flags, split the file name, call
`file_type(file)`, and then line 626 executes a bare `sys.exit()`
unconditionally, terminating the whole process for every file.  Every
later statement — the hashing loop, the keypair generation, the
`{"FAILED": ...}` returns at lines 694-701, and the final record at
lines 758-769 — is unreachable (and would also fail: `sensitive` at
line 686 is an undefined name, and the accumulators passed on are the
empty strings bound at lines 641-643). -/
def process_file (file temp_dir sub_dir : String) : ProcResult :=
  ProcResult.sysExit

-- ## Transfer scheduler: model of get_data in dds_cli/__main__.py

/-- Scheduler state of the download loop in `get_data`
(dds_cli/__main__.py lines 1568-1626).  Files are identified by
numbers.  `pending` models the not-yet-consumed remainder of the file
iterator, `inflight` the size of the `download_threads` table (the
outstanding futures), and `admitted` the files submitted to the
executor so far, in submission order. -/
structure SchedState where
  pending : List Nat
  inflight : Nat
  admitted : List Nat
deriving DecidableEq

/-- The initial submissions of `get_data` (lines 1580-1585):
`itertools.islice(iterator, num_threads)` submits the first
`num_threads` files. -/
def schedInit (num_threads : Nat) (files : List Nat) : SchedState :=
  { pending := files.drop num_threads
    inflight := (files.take num_threads).length
    admitted := files.take num_threads }

/-- One iteration of the `while download_threads:` loop (lines
1587-1626).  `round` holds one flag per completed future returned by
`concurrent.futures.wait` (`true` = `dfut.result()` raised
`BrokenExecutor`, whose handler `continue`s past the `new_tasks += 1`).
Each completed future is popped from `download_threads`; `new_tasks`
counts only the non-broken ones; `itertools.islice(iterator,
new_tasks)` then admits that many further files. -/
def schedStep (s : SchedState) (round : List Bool) : SchedState :=
  let newTasks := (round.filter (fun b => !b)).length
  { pending := s.pending.drop newTasks
    inflight := s.inflight - round.length + min newTasks s.pending.length
    admitted := s.admitted ++ s.pending.take newTasks }

/-- A whole run of the download loop over a given completion schedule. -/
def schedRun (s : SchedState) (rounds : List (List Bool)) : SchedState :=
  rounds.foldl schedStep s

/-- Validity of a completion schedule: the loop body only runs while
futures are outstanding, and `concurrent.futures.wait` returns a
nonempty subset of the outstanding futures. -/
def schedValid : SchedState → List (List Bool) → Bool
  | _, [] => true
  | s, r :: rs =>
    decide (0 < s.inflight) && decide (0 < r.length) && decide (r.length ≤ s.inflight)
      && schedValid (schedStep s r) rs

/-- Whether no completed future reported a `BrokenExecutor`. -/
def schedNoBroken (rounds : List (List Bool)) : Bool :=
  rounds.all (fun r => r.all (fun b => !b))

-- ## Helper lemmas

/-- Hex digits below 16 render inside the lower-case hex alphabet. -/
theorem hexChar_mem (n : Nat) (h : n < 16) : hexChar n ∈ lowerHexChars := by
  interval_cases n <;> decide

/-- Every character of a `toHex` rendering is a lower-case hex digit. -/
theorem toHex_lower (bytes : List Nat) : ∀ c ∈ (toHex bytes).toList, c ∈ lowerHexChars := by
  intro c hc
  have h2 : c ∈ bytes.flatMap (fun b => [hexChar (b / 16 % 16), hexChar (b % 16)]) := hc
  rcases List.mem_flatMap.mp h2 with ⟨b, hb, hcb⟩
  have h3 : c = hexChar (b / 16 % 16) ∨ c = hexChar (b % 16) := by simpa using hcb
  rcases h3 with h3 | h3 <;> subst h3 <;> exact hexChar_mem _ (by omega)

-- ## C10: chunk-independent compression round-trip

/-- C10: compression is chunk-independent — `compress_chunk` yields one
self-contained compressed chunk per input chunk, and `decompress_chunk`
on that compressed chunk yields exactly the original chunk. -/
theorem compress_then_decompress_chunk_id (c : List Nat) :
    compress_chunk c = [gzipCompress c] ∧ decompress_chunk (gzipCompress c) = [c] := by
  constructor
  · rfl
  · simp [decompress_chunk, gzipDecompress, gzipCompress, gzipHeaderBytes]

-- ## C4: session key leaks to stdout (code bug)

/-- C4: contrary to the claim that secret key material is never written
to any output channel, `generate_header` prints the raw per-file
session key to stdout (`print(session_key)`, dp_cli.py line 379) on
every invocation. -/
theorem generate_header_prints_session_key (ownPriv remotePub sessionKey : List Nat) :
    sessionKey ∈ (generate_header ownPriv remotePub sessionKey).stdout := by
  simp [generate_header]

-- ## C3: process_file terminates the whole process (code bug)

/-- C3: contrary to the claim that a keypair-generation failure yields a
`{FAILED: {Path, Error}}` record while the enclosing process keeps
running, `process_file` executes a bare `sys.exit()` (dp_cli.py line
626) and therefore terminates the whole process for every file, before
any hashing or keypair work; the FAILED-record returns at lines 694-701
are unreachable. -/
theorem process_file_always_exits :
    process_file "a.txt" "DataDelivery_2020/files" "" = ProcResult.sysExit := rfl

-- ## C9: hash_encrypt_hash returns the plaintext input path

/-- C9: the path component of `hash_encrypt_hash`'s return value is the
plaintext `file` argument, not the `encrypted_file` the ciphertext was
written to, so the caller's recorded final path for that branch is the
unencrypted input file. -/
theorem hash_encrypt_hash_returns_input_path (file encrypted_file : String)
    (chunks : List (List Nat)) (ownPriv remotePub sessionKey hmacKey : List Nat)
    (entropy : Nat → List Nat) (hne : file ≠ encrypted_file) :
    (hash_encrypt_hash file encrypted_file chunks ownPriv remotePub sessionKey hmacKey
        entropy).1.2.2 = file
    ∧ (hash_encrypt_hash file encrypted_file chunks ownPriv remotePub sessionKey hmacKey
        entropy).1.2.2 ≠ encrypted_file := by
  exact ⟨rfl, hne⟩

/-- Witness for C9 at a concrete already-compressed file. -/
theorem hash_encrypt_hash_returns_input_path_witness :
    (hash_encrypt_hash "a.gzip" "a.gzip.c4gh" [[1]] [2] [3] [4] [5]
        (fun _ => [6])).1.2.2 = "a.gzip"
    ∧ (hash_encrypt_hash "a.gzip" "a.gzip.c4gh" [[1]] [2] [3] [4] [5]
        (fun _ => [6])).1.2.2 ≠ "a.gzip.c4gh" :=
  hash_encrypt_hash_returns_input_path "a.gzip" "a.gzip.c4gh" [[1]] [2] [3] [4] [5]
    (fun _ => [6]) (by decide)

-- ## C8: finalize at most once, lower-case hex digest

/-- C8: on a not-yet-finalized checksum accumulator, `finalize` returns
the digest (whose hex rendering is lower-case hexadecimal) exactly
once: on the finalized accumulator a second `finalize` and any further
`update` fail with the `AlreadyFinalized` programming error instead of
returning a (possibly different) digest. -/
theorem checksum_accumulator_finalize_once (h : HMACAcc) (hf : h.finalized = false) :
    ∃ d h2, h.finalize = Except.ok (d, h2)
      ∧ (∀ c ∈ (toHex d).toList, c ∈ lowerHexChars)
      ∧ h2.finalize = Except.error "AlreadyFinalized"
      ∧ ∀ chunk, h2.update chunk = Except.error "AlreadyFinalized" := by
  refine ⟨hmacDigest h.key h.data, { h with finalized := true }, ?_, toHex_lower _, ?_, ?_⟩
  · simp [HMACAcc.finalize, hf]
  · simp [HMACAcc.finalize]
  · intro chunk
    simp [HMACAcc.update]

/-- Witness for C8 on a concrete fresh accumulator. -/
theorem checksum_accumulator_finalize_once_witness :
    ∃ d h2, HMACAcc.finalize ⟨[1, 2], [3], false⟩ = Except.ok (d, h2)
      ∧ (∀ c ∈ (toHex d).toList, c ∈ lowerHexChars)
      ∧ HMACAcc.finalize h2 = Except.error "AlreadyFinalized"
      ∧ ∀ chunk, HMACAcc.update h2 chunk = Except.error "AlreadyFinalized" :=
  checksum_accumulator_finalize_once ⟨[1, 2], [3], false⟩ rfl

-- ## C1: the restore direction does not reproduce the protect checksum (code bug)

set_option maxRecDepth 100000

/-- C1: contrary to the round-trip claim, the restore direction as
implemented (`try_decryption`) decrypts the artifact produced by
`hash_compress_hash_encrypt_hash` but never decompresses, so the
checksum it recomputes is the checksum of the gzip-compressed bytes and
differs from the original-stage checksum recorded during protect —
already for the one-chunk file `[5]`. -/
theorem try_decryption_checksum_mismatch :
    (hash_compress_hash_encrypt_hash "a.txt" "a.txt.gzip.c4gh" [[5]] [2] (pubOf [3]) [7]
        pyHmacKey (fun k => [k, 11, 0, 0, 0, 0, 0, 0, 0, 0, 0, 0])).1.1
      = toHex (hmacDigest pyHmacKey [5])
    ∧ try_decryption [3] (pubOf [2]) pyHmacKey
        (hash_compress_hash_encrypt_hash "a.txt" "a.txt.gzip.c4gh" [[5]] [2] (pubOf [3]) [7]
          pyHmacKey (fun k => [k, 11, 0, 0, 0, 0, 0, 0, 0, 0, 0, 0])).2
      = some (toHex (hmacDigest pyHmacKey (gzipCompress [5])))
    ∧ toHex (hmacDigest pyHmacKey (gzipCompress [5])) ≠ toHex (hmacDigest pyHmacKey [5]) := by
  decide

-- ## C2: scheduler lemmas

/-- One loop iteration never raises the number of outstanding futures:
at most as many files are admitted as futures completed. -/
theorem schedStep_inflight_le (N : Nat) (s : SchedState) (r : List Bool)
    (h1 : r.length ≤ s.inflight) (hs : s.inflight ≤ N) :
    (schedStep s r).inflight ≤ N := by
  have hf : (r.filter (fun b => !b)).length ≤ r.length := List.length_filter_le _ _
  simp only [schedStep]
  omega

/-- Along any valid completion schedule, the number of outstanding
futures stays bounded by its initial bound. -/
theorem schedValid_run_inflight_le (N : Nat) :
    ∀ (rounds : List (List Bool)) (s : SchedState), schedValid s rounds = true →
      s.inflight ≤ N → ∀ i, (schedRun s (rounds.take i)).inflight ≤ N := by
  intro rounds
  induction rounds with
  | nil =>
    intro s _ hs i
    simpa [schedRun] using hs
  | cons r rs ih =>
    intro s hv hs i
    have hv2 : (0 < s.inflight ∧ 0 < r.length ∧ r.length ≤ s.inflight)
        ∧ schedValid (schedStep s r) rs = true := by
      simpa [schedValid, Bool.and_eq_true, decide_eq_true_eq, and_assoc] using hv
    match i with
    | 0 => simpa [schedRun] using hs
    | i + 1 =>
      have hstep : (schedStep s r).inflight ≤ N :=
        schedStep_inflight_le N s r hv2.1.2.2 hs
      simpa [schedRun] using ih (schedStep s r) hv2.2 hstep i

/-- Along a valid schedule with no `BrokenExecutor` completion, the loop
can only terminate (no futures outstanding) once the file iterator is
exhausted: every completed future funds one replacement admission. -/
theorem schedValid_run_drain :
    ∀ (rounds : List (List Bool)) (s : SchedState), schedValid s rounds = true →
      schedNoBroken rounds = true → (s.inflight = 0 → s.pending = []) →
      ((schedRun s rounds).inflight = 0 → (schedRun s rounds).pending = []) := by
  intro rounds
  induction rounds with
  | nil =>
    intro s _ _ hpre
    simpa [schedRun] using hpre
  | cons r rs ih =>
    intro s hv hnb hpre
    have hv2 : (0 < s.inflight ∧ 0 < r.length ∧ r.length ≤ s.inflight)
        ∧ schedValid (schedStep s r) rs = true := by
      simpa [schedValid, Bool.and_eq_true, decide_eq_true_eq, and_assoc] using hv
    have hnb2 : (r.all (fun b => !b) = true) ∧ schedNoBroken rs = true := by
      simpa [schedNoBroken] using hnb
    have hfilter : r.filter (fun b => !b) = r :=
      List.filter_eq_self.mpr (fun a ha => List.all_eq_true.mp hnb2.1 a ha)
    have hstep : (schedStep s r).inflight = 0 → (schedStep s r).pending = [] := by
      intro h0
      simp only [schedStep, hfilter] at h0 ⊢
      have hp : s.pending.length = 0 := by omega
      have hp2 : s.pending = [] := List.length_eq_zero.mp hp
      simp [hp2]
    simpa [schedRun] using ih (schedStep s r) hv2.2 hnb2.2 hstep

/-- The submitted files together with the unconsumed iterator remainder
are an invariant of the loop: admission only moves files from `pending`
to `admitted`, never duplicating or dropping one. -/
theorem schedRun_admitted_append :
    ∀ (rounds : List (List Bool)) (s : SchedState),
      (schedRun s rounds).admitted ++ (schedRun s rounds).pending =
        s.admitted ++ s.pending := by
  intro rounds
  induction rounds with
  | nil =>
    intro s
    simp [schedRun]
  | cons r rs ih =>
    intro s
    have hstep : (schedStep s r).admitted ++ (schedStep s r).pending =
        s.admitted ++ s.pending := by
      simp [schedStep, List.append_assoc, List.take_append_drop]
    calc (schedRun s (r :: rs)).admitted ++ (schedRun s (r :: rs)).pending
        = (schedRun (schedStep s r) rs).admitted ++ (schedRun (schedStep s r) rs).pending := by
          simp [schedRun]
      _ = (schedStep s r).admitted ++ (schedStep s r).pending := ih (schedStep s r)
      _ = s.admitted ++ s.pending := hstep

-- ## C2: concurrency bound and admission (amended by the counterexample below)

/-- C2 (amended): along every valid completion schedule the download
loop of `get_data` keeps at most `N` futures outstanding; and provided
additionally that no completed future reports a `BrokenExecutor`, when
the loop terminates (no futures outstanding) every one of the files has
been admitted exactly once, in order.  (Without that extra proviso the
admission half fails, see the counterexample.) -/
theorem get_data_scheduler_bound_and_admission (N : Nat) (files : List Nat)
    (rounds : List (List Bool)) (hN : 1 ≤ N) (hM : N ≤ files.length)
    (hvalid : schedValid (schedInit N files) rounds = true) :
    (∀ i, (schedRun (schedInit N files) (rounds.take i)).inflight ≤ N)
    ∧ (schedNoBroken rounds = true →
        (schedRun (schedInit N files) rounds).inflight = 0 →
        (schedRun (schedInit N files) rounds).admitted = files) := by
  have hinit : (schedInit N files).inflight ≤ N := by
    simp only [schedInit, List.length_take]
    omega
  constructor
  · intro i
    exact schedValid_run_inflight_le N rounds (schedInit N files) hvalid hinit i
  · intro hnb hz
    have hpre : (schedInit N files).inflight = 0 → (schedInit N files).pending = [] := by
      intro h0
      exfalso
      simp only [schedInit, List.length_take] at h0
      omega
    have hdrain := schedValid_run_drain rounds (schedInit N files) hvalid hnb hpre hz
    have happ := schedRun_admitted_append rounds (schedInit N files)
    rw [hdrain, List.append_nil] at happ
    rw [happ]
    simp [schedInit]

/-- Counterexample to C2 as stated: with concurrency ceiling 1 and the
two files `[0, 1]`, if the single future for file 0 completes with a
`BrokenExecutor` result, the `continue` in its handler skips the
`new_tasks` increment, the run terminates (no futures outstanding), and
file 1 is never admitted — even though break-on-fail is not involved. -/
theorem get_data_scheduler_drops_file_on_broken_executor :
    schedValid (schedInit 1 [0, 1]) [[true]] = true
    ∧ (schedRun (schedInit 1 [0, 1]) [[true]]).inflight = 0
    ∧ (schedRun (schedInit 1 [0, 1]) [[true]]).admitted = [0]
    ∧ 1 ∉ (schedRun (schedInit 1 [0, 1]) [[true]]).admitted := by
  decide

/-- Witness for C2 at a concrete run: ceiling 1, files `[0, 1]`, both
completions successful — the bound holds and both files are admitted. -/
theorem get_data_scheduler_bound_and_admission_witness :
    (schedRun (schedInit 1 [0, 1]) ([[false], [false]].take 1)).inflight ≤ 1
    ∧ (schedRun (schedInit 1 [0, 1]) [[false], [false]]).admitted = [0, 1] :=
  ⟨(get_data_scheduler_bound_and_admission 1 [0, 1] [[false], [false]] (by decide) (by decide)
      (by decide)).1 1,
    (get_data_scheduler_bound_and_admission 1 [0, 1] [[false], [false]] (by decide) (by decide)
      (by decide)).2 (by decide) (by decide)⟩

-- ## Write-trace structure of the forward pipelines

/-- The nonces written to the encrypted file, in write order. -/
def noncesOf : List WEvent → List (List Nat)
  | [] => []
  | WEvent.nonce n :: rest => n :: noncesOf rest
  | WEvent.header _ :: rest => noncesOf rest
  | WEvent.ciphertext _ :: rest => noncesOf rest

/-- The write trace of the `hash_encrypt_hash` chunk loop: for the k-th
chunk, the k-th fresh random draw is written as the nonce immediately
followed by that segment's ciphertext-plus-tag. -/
theorem hehChunks_events (cipherKey : List Nat) (entropy : Nat → List Nat) :
    ∀ (k : Nat) (cs : List (List Nat)),
      (hehChunks cipherKey entropy k cs).2.2 =
        (List.enumFrom k cs).flatMap
          (fun p => [WEvent.nonce (entropy p.1),
            WEvent.ciphertext (aeadEncrypt cipherKey (entropy p.1) p.2)]) := by
  intro k cs
  induction cs generalizing k with
  | nil => rfl
  | cons c cs ih => simp [hehChunks, encrypt_segment, List.enumFrom, ih]

/-- The write trace of the `hash_compress_hash_encrypt_hash` chunk loop:
for the k-th chunk, the k-th fresh random draw is written as the nonce
immediately followed by the ciphertext-plus-tag of the compressed chunk. -/
theorem hchehChunks_events (cipherKey : List Nat) (entropy : Nat → List Nat) :
    ∀ (k : Nat) (cs : List (List Nat)),
      (hchehChunks cipherKey entropy k cs).2.2.2 =
        (List.enumFrom k cs).flatMap
          (fun p => [WEvent.nonce (entropy p.1),
            WEvent.ciphertext (aeadEncrypt cipherKey (entropy p.1) (gzipCompress p.2))]) := by
  intro k cs
  induction cs generalizing k with
  | nil => rfl
  | cons c cs ih => simp [hchehChunks, encrypt_segment, List.enumFrom, ih]

/-- The chunk loop of `hash_encrypt_hash` never writes a header event. -/
theorem hehChunks_no_header (cipherKey : List Nat) (entropy : Nat → List Nat) :
    ∀ (k : Nat) (cs : List (List Nat)),
      ((hehChunks cipherKey entropy k cs).2.2).all (fun e => !e.isHeader) = true := by
  intro k cs
  rw [hehChunks_events, List.all_eq_true]
  intro e he
  rcases List.mem_flatMap.mp he with ⟨p, hp, hep⟩
  have h2 : e = WEvent.nonce (entropy p.1)
      ∨ e = WEvent.ciphertext (aeadEncrypt cipherKey (entropy p.1) p.2) := by simpa using hep
  rcases h2 with h2 | h2 <;> subst h2 <;> rfl

/-- The chunk loop of `hash_compress_hash_encrypt_hash` never writes a
header event. -/
theorem hchehChunks_no_header (cipherKey : List Nat) (entropy : Nat → List Nat) :
    ∀ (k : Nat) (cs : List (List Nat)),
      ((hchehChunks cipherKey entropy k cs).2.2.2).all (fun e => !e.isHeader) = true := by
  intro k cs
  rw [hchehChunks_events, List.all_eq_true]
  intro e he
  rcases List.mem_flatMap.mp he with ⟨p, hp, hep⟩
  have h2 : e = WEvent.nonce (entropy p.1)
      ∨ e = WEvent.ciphertext (aeadEncrypt cipherKey (entropy p.1) (gzipCompress p.2)) := by
    simpa using hep
  rcases h2 with h2 | h2 <;> subst h2 <;> rfl

/-- The nonces of the `hash_encrypt_hash` chunk loop are exactly the
successive random draws, one per segment. -/
theorem hehChunks_nonces (cipherKey : List Nat) (entropy : Nat → List Nat) :
    ∀ (k : Nat) (cs : List (List Nat)),
      noncesOf (hehChunks cipherKey entropy k cs).2.2 =
        (List.range' k cs.length).map entropy := by
  intro k cs
  induction cs generalizing k with
  | nil => rfl
  | cons c cs ih => simp [hehChunks, encrypt_segment, noncesOf, List.range'_succ, ih]

-- ## C6: nonce freshness and write order (amended by the counterexample below)

/-- C6 (amended): within one cipher session (one `hash_encrypt_hash`
run), every segment is encrypted under the next fresh `os.urandom(12)`
draw and that draw is written immediately before the segment's
ciphertext-plus-tag; and provided the successive random draws are
pairwise distinct, no two nonces of the session are equal.  (The code
draws nonces independently at random and performs no reuse check, so
distinctness of the draws is not enforced by the code — see the
counterexample.) -/
theorem encrypt_segment_nonce_discipline (file encrypted_file : String)
    (chunks : List (List Nat)) (ownPriv remotePub sessionKey hmacKey : List Nat)
    (entropy : Nat → List Nat) (hinj : ∀ i j, entropy i = entropy j → i = j) :
    (hash_encrypt_hash file encrypted_file chunks ownPriv remotePub sessionKey hmacKey
        entropy).2
      = WEvent.header (generate_header ownPriv remotePub sessionKey).headerBytes ::
          (List.enumFrom 0 chunks).flatMap
            (fun p => [WEvent.nonce (entropy p.1),
              WEvent.ciphertext (aeadEncrypt sessionKey (entropy p.1) p.2)])
    ∧ (noncesOf (hash_encrypt_hash file encrypted_file chunks ownPriv remotePub sessionKey
        hmacKey entropy).2).Nodup := by
  constructor
  · simp [hash_encrypt_hash, generate_header]
    exact hehChunks_events sessionKey entropy 0 chunks
  · have h1 : noncesOf (hash_encrypt_hash file encrypted_file chunks ownPriv remotePub
        sessionKey hmacKey entropy).2 = (List.range' 0 chunks.length).map entropy := by
      simp [hash_encrypt_hash, noncesOf]
      exact hehChunks_nonces sessionKey entropy 0 chunks
    rw [h1]
    exact (List.nodup_range' 0 chunks.length).map (fun a b h => hinj a b h)

/-- Counterexample to C6 as stated: if the random source happens to
return the same 12 bytes twice, the two segments of one session are
encrypted under equal nonces — `_encrypt_segment` performs no
uniqueness check. -/
theorem encrypt_segment_nonce_collision :
    noncesOf (hash_encrypt_hash "a.gzip" "a.gzip.c4gh" [[1], [2]] [2] [3] [7] [5]
        (fun _ => [0, 0, 0, 0, 0, 0, 0, 0, 0, 0, 0, 0])).2
      = [[0, 0, 0, 0, 0, 0, 0, 0, 0, 0, 0, 0], [0, 0, 0, 0, 0, 0, 0, 0, 0, 0, 0, 0]]
    ∧ ¬ (noncesOf (hash_encrypt_hash "a.gzip" "a.gzip.c4gh" [[1], [2]] [2] [3] [7] [5]
        (fun _ => [0, 0, 0, 0, 0, 0, 0, 0, 0, 0, 0, 0])).2).Nodup := by
  decide

/-- Witness for C6 on a two-segment session with distinct draws. -/
theorem encrypt_segment_nonce_discipline_witness :
    (hash_encrypt_hash "a.gzip" "a.gzip.c4gh" [[1], [2]] [2] [3] [7] [5] (fun k => [k])).2
      = WEvent.header (generate_header [2] [3] [7]).headerBytes ::
          (List.enumFrom 0 [[1], [2]]).flatMap
            (fun p => [WEvent.nonce [p.1],
              WEvent.ciphertext (aeadEncrypt [7] [p.1] p.2)])
    ∧ (noncesOf (hash_encrypt_hash "a.gzip" "a.gzip.c4gh" [[1], [2]] [2] [3] [7] [5]
        (fun k => [k])).2).Nodup :=
  encrypt_segment_nonce_discipline "a.gzip" "a.gzip.c4gh" [[1], [2]] [2] [3] [7] [5]
    (fun k => [k]) (fun i j h => by simpa using h)

-- ## C7: the header is written exactly once, before the first segment

/-- C7: in both forward pipelines the encryption header is the very
first write to the output file and no later write is a header write —
it is written exactly once and precedes the first ciphertext segment. -/
theorem encryption_header_once_first (file encrypted_file : String)
    (chunks : List (List Nat)) (ownPriv remotePub sessionKey hmacKey : List Nat)
    (entropy : Nat → List Nat) :
    ((hash_compress_hash_encrypt_hash file encrypted_file chunks ownPriv remotePub sessionKey
        hmacKey entropy).2.head? =
        some (WEvent.header (generate_header ownPriv remotePub sessionKey).headerBytes)
      ∧ ((hash_compress_hash_encrypt_hash file encrypted_file chunks ownPriv remotePub
        sessionKey hmacKey entropy).2.tail.all (fun e => !e.isHeader)) = true)
    ∧ ((hash_encrypt_hash file encrypted_file chunks ownPriv remotePub sessionKey hmacKey
        entropy).2.head? =
        some (WEvent.header (generate_header ownPriv remotePub sessionKey).headerBytes)
      ∧ ((hash_encrypt_hash file encrypted_file chunks ownPriv remotePub sessionKey hmacKey
        entropy).2.tail.all (fun e => !e.isHeader)) = true) := by
  refine ⟨⟨rfl, ?_⟩, ⟨rfl, ?_⟩⟩
  · simpa [hash_compress_hash_encrypt_hash] using
      hchehChunks_no_header sessionKey entropy 0 chunks
  · simpa [hash_encrypt_hash] using hehChunks_no_header sessionKey entropy 0 chunks

-- ## C5: tampering with ciphertext or tag defeats decryption

/-- Taking exactly the length of the left part of an append. -/
theorem take_append_of_len (l m : List Nat) (n : Nat) (h : l.length = n) :
    (l ++ m).take n = l := by
  subst h
  simp

/-- Dropping exactly the length of the left part of an append. -/
theorem drop_append_of_len (l m : List Nat) (n : Nat) (h : l.length = n) :
    (l ++ m).drop n = m := by
  subst h
  simp

/-- If the tag half does not verify over the body half, decryption
yields nothing. -/
theorem aeadDecrypt_append_ne (key nonce body2 tag2 : List Nat)
    (hlen : body2.length = tag2.length) (hne : tagOf key nonce body2 ≠ tag2) :
    aeadDecrypt key nonce (body2 ++ tag2) = none := by
  have hl : (body2 ++ tag2).length = 2 * body2.length := by
    simp [List.length_append]
    omega
  simp only [aeadDecrypt]
  rw [hl]
  have h3 : 2 * body2.length / 2 = body2.length := by omega
  have h4 : 2 * body2.length % 2 = 0 := by omega
  rw [h3, take_append_of_len _ _ _ rfl, drop_append_of_len _ _ _ rfl]
  rw [if_neg (fun hh => hne hh.2)]

/-- Every byte of a ciphertext body is below 256. -/
theorem encBody_get_lt (key nonce pt : List Nat) (j : Nat)
    (h : j < (encBody key nonce pt).length) :
    (encBody key nonce pt).get ⟨j, h⟩ < 256 := by
  have h2 : j < pt.length := by simpa [encBody] using h
  simp [encBody, List.getElem_mapIdx]
  omega

/-- Every byte of a tag is below 256. -/
theorem tagOf_get_lt (key nonce body : List Nat) (j : Nat)
    (h : j < (tagOf key nonce body).length) :
    (tagOf key nonce body).get ⟨j, h⟩ < 256 := by
  have h2 : j < body.length := by simpa [tagOf] using h
  simp [tagOf, List.getElem_mapIdx]
  omega


/-- C5: flipping any byte of an encrypted segment — in the ciphertext
body or in its authentication tag — makes decryption of that segment
fail: `aeadDecrypt` returns `none`, so no plaintext bytes for the
segment are released to the caller or written to the output file. -/
theorem decrypt_segment_tamper_fails (key nonce pt : List Nat) (i b : Nat)
    (hi : i < (aeadEncrypt key nonce pt).length) (hb : b < 256)
    (hne : b ≠ (aeadEncrypt key nonce pt).get ⟨i, hi⟩) :
    aeadDecrypt key nonce ((aeadEncrypt key nonce pt).set i b) = none := by
  have hbl : (encBody key nonce pt).length = pt.length := by simp [encBody]
  have htl : (tagOf key nonce (encBody key nonce pt)).length = pt.length := by
    simp [tagOf, hbl]
  have hival : (aeadEncrypt key nonce pt)[i]? =
      some ((aeadEncrypt key nonce pt).get ⟨i, hi⟩) := by
    simp [List.getElem?_eq_getElem]
  by_cases hcase : i < pt.length
  · -- the flipped byte lies in the ciphertext body
    have hib : i < (encBody key nonce pt).length := by rw [hbl]; exact hcase
    have hset : (aeadEncrypt key nonce pt).set i b
        = (encBody key nonce pt).set i b ++ tagOf key nonce (encBody key nonce pt) := by
      simp only [aeadEncrypt]
      rw [List.set_append]
      simp [hib]
    have hbodyval : (encBody key nonce pt)[i]? =
        some ((aeadEncrypt key nonce pt).get ⟨i, hi⟩) := by
      rw [← hival]
      simp only [aeadEncrypt]
      rw [List.getElem?_append, if_pos hib]
    have hbval256 : (aeadEncrypt key nonce pt).get ⟨i, hi⟩ < 256 := by
      have h5 : (encBody key nonce pt).get ⟨i, hib⟩ < 256 := encBody_get_lt key nonce pt i hib
      have h6 : (encBody key nonce pt)[i]? = some ((encBody key nonce pt).get ⟨i, hib⟩) := by
        simp [List.getElem?_eq_getElem]
      rw [h6] at hbodyval
      have h7 := Option.some.inj hbodyval
      omega
    rw [hset]
    apply aeadDecrypt_append_ne
    · simp [hbl, htl]
    · intro heq
      have h8 : (tagOf key nonce ((encBody key nonce pt).set i b))[i]?
          = (tagOf key nonce (encBody key nonce pt))[i]? := by rw [heq]
      have h9 : (tagOf key nonce ((encBody key nonce pt).set i b))[i]?
          = some ((b + aeadTk key nonce i) % 256) := by
        simp [tagOf, List.getElem?_mapIdx, List.getElem?_set, hib]
      have h10 : (tagOf key nonce (encBody key nonce pt))[i]?
          = some (((aeadEncrypt key nonce pt).get ⟨i, hi⟩ + aeadTk key nonce i) % 256) := by
        simp [tagOf, List.getElem?_mapIdx, hbodyval]
      rw [h9, h10] at h8
      have h11 := Option.some.inj h8
      have h12 : b = (aeadEncrypt key nonce pt).get ⟨i, hi⟩ := by omega
      exact hne h12
  · -- the flipped byte lies in the authentication tag
    have hle : (encBody key nonce pt).length ≤ i := by rw [hbl]; omega
    have hjt : i - pt.length < (tagOf key nonce (encBody key nonce pt)).length := by
      rw [htl]
      have h2 : (aeadEncrypt key nonce pt).length = pt.length + pt.length := by
        simp [aeadEncrypt, hbl, htl]
      omega
    have hset : (aeadEncrypt key nonce pt).set i b
        = encBody key nonce pt
          ++ (tagOf key nonce (encBody key nonce pt)).set (i - pt.length) b := by
      simp only [aeadEncrypt]
      rw [List.set_append]
      simp [hbl, hcase]
    have htagval : (tagOf key nonce (encBody key nonce pt))[i - pt.length]? =
        some ((aeadEncrypt key nonce pt).get ⟨i, hi⟩) := by
      rw [← hival]
      simp only [aeadEncrypt]
      rw [List.getElem?_append_right hle, hbl]
    rw [hset]
    apply aeadDecrypt_append_ne
    · simp [hbl, htl]
    · intro heq
      have h8 : (tagOf key nonce (encBody key nonce pt))[i - pt.length]?
          = ((tagOf key nonce (encBody key nonce pt)).set (i - pt.length) b)[i - pt.length]? := by
        conv_lhs => rw [heq]
      have h9 : ((tagOf key nonce (encBody key nonce pt)).set (i - pt.length) b)[i - pt.length]?
          = some b := by
        simp [List.getElem?_set, hjt]
      rw [htagval, h9] at h8
      exact hne (Option.some.inj h8).symm

/-- Witness for C5: flipping the second body byte of a concrete
two-byte segment makes decryption fail. -/
theorem decrypt_segment_tamper_fails_witness :
    aeadDecrypt [1] [2] ((aeadEncrypt [1] [2] [3, 200]).set 1 9) = none :=
  decrypt_segment_tamper_fails [1] [2] [3, 200] 1 9 (by decide) (by decide) (by decide)
